import Mathlib

/-!
Verification of the pi-sniffrf capture / replay / scan engine.

The definitions below are shallow embeddings of the Python sources:
`adaptive_scanner.py` (configuration search), `rf_capture.py` (capture
sessions and capture-log persistence), `rf_repeat.py` (replay sessions and
capture-log parsing), `main.py` (session controller and interrupt
handling), `scanner.py` and `scanner_cpp.py` (spectrum sweepers).
Radio hardware behaviour (which reads arrive, which sends succeed, where
exceptions are raised) is passed in as explicit parameters, so every
definition is executable.
-/

namespace PiSniffRF

/-- Air-interface configuration, from `adaptive_scanner.py`'s `config`
dict: data rate, CRC length, power level, address width, channel.  The
enumeration constants of the RF24 library are modelled as `Nat`. -/
structure RadioConfig where
  rate : Nat
  crc : Nat
  pa : Nat
  addrWidth : Nat
  channel : Nat
deriving DecidableEq

/-- The Cartesian product of the five enumeration lists in the nesting
order of `scan_all_combinations`: rate outermost, then crc, power,
address width, channel innermost (channel varies fastest). -/
def cartProduct (rates crcs pas addrs chans : List Nat) : List RadioConfig :=
  rates.flatMap fun rate =>
    crcs.flatMap fun crc =>
      pas.flatMap fun pa =>
        addrs.flatMap fun aw =>
          chans.map fun ch => ⟨rate, crc, pa, aw, ch⟩

/-- Innermost loop of `scan_all_combinations` (`for channel in channels`):
probe each channel; on the first combination yielding a non-empty packet
list, return it together with the list of combinations probed so far. -/
def scanChannelLoop {α : Type} (probe : RadioConfig → List α) (rate crc pa aw : Nat) :
    List Nat → Option (RadioConfig × List α) × List RadioConfig
  | [] => (none, [])
  | ch :: rest =>
    let cfg : RadioConfig := ⟨rate, crc, pa, aw, ch⟩
    let pkts := probe cfg
    if pkts.isEmpty then
      let r := scanChannelLoop probe rate crc pa aw rest
      (r.1, cfg :: r.2)
    else
      (some (cfg, pkts), [cfg])

/-- `for addr_width in address_widths` loop of `scan_all_combinations`. -/
def scanAddrLoop {α : Type} (probe : RadioConfig → List α) (rate crc pa : Nat)
    (chans : List Nat) :
    List Nat → Option (RadioConfig × List α) × List RadioConfig
  | [] => (none, [])
  | aw :: rest =>
    let r := scanChannelLoop probe rate crc pa aw chans
    match r.1 with
    | some res => (some res, r.2)
    | none =>
      let r2 := scanAddrLoop probe rate crc pa chans rest
      (r2.1, r.2 ++ r2.2)

/-- `for pa in power_levels` loop of `scan_all_combinations`. -/
def scanPaLoop {α : Type} (probe : RadioConfig → List α) (rate crc : Nat)
    (addrs chans : List Nat) :
    List Nat → Option (RadioConfig × List α) × List RadioConfig
  | [] => (none, [])
  | pa :: rest =>
    let r := scanAddrLoop probe rate crc pa chans addrs
    match r.1 with
    | some res => (some res, r.2)
    | none =>
      let r2 := scanPaLoop probe rate crc addrs chans rest
      (r2.1, r.2 ++ r2.2)

/-- `for crc in crc_lengths` loop of `scan_all_combinations`. -/
def scanCrcLoop {α : Type} (probe : RadioConfig → List α) (rate : Nat)
    (pas addrs chans : List Nat) :
    List Nat → Option (RadioConfig × List α) × List RadioConfig
  | [] => (none, [])
  | crc :: rest =>
    let r := scanPaLoop probe rate crc addrs chans pas
    match r.1 with
    | some res => (some res, r.2)
    | none =>
      let r2 := scanCrcLoop probe rate pas addrs chans rest
      (r2.1, r.2 ++ r2.2)

/-- `for rate in data_rates` loop of `scan_all_combinations`. -/
def scanRateLoop {α : Type} (probe : RadioConfig → List α)
    (crcs pas addrs chans : List Nat) :
    List Nat → Option (RadioConfig × List α) × List RadioConfig
  | [] => (none, [])
  | rate :: rest =>
    let r := scanCrcLoop probe rate pas addrs chans crcs
    match r.1 with
    | some res => (some res, r.2)
    | none =>
      let r2 := scanRateLoop probe crcs pas addrs chans rest
      (r2.1, r.2 ++ r2.2)

/-- `AdaptiveScanner.scan_all_combinations`: iterates the five nested
loops; the first component is the returned value (`some (config, packets)`
on detection, `none` standing for the Python `None, []` not-found
outcome), and the second component is the trace of combinations that were
actually probed, in probe order. -/
def scanAllCombinations {α : Type} (probe : RadioConfig → List α)
    (rates crcs pas addrs chans : List Nat) :
    Option (RadioConfig × List α) × List RadioConfig :=
  scanRateLoop probe crcs pas addrs chans rates

/-- Reference recursion: one flat sweep over an explicit list of
combinations, with one early-exit point. -/
def scanList {α : Type} (probe : RadioConfig → List α) :
    List RadioConfig → Option (RadioConfig × List α) × List RadioConfig
  | [] => (none, [])
  | c :: rest =>
    let pkts := probe c
    if pkts.isEmpty then
      let r := scanList probe rest
      (r.1, c :: r.2)
    else
      (some (c, pkts), [c])

lemma scanList_append {α : Type} (probe : RadioConfig → List α) (l₁ l₂ : List RadioConfig) :
    scanList probe (l₁ ++ l₂) =
      if (scanList probe l₁).1.isSome then scanList probe l₁
      else ((scanList probe l₂).1, (scanList probe l₁).2 ++ (scanList probe l₂).2) := by
  induction l₁ with
  | nil => simp [scanList]
  | cons c rest ih =>
    by_cases h : (probe c).isEmpty
    · simp only [List.cons_append, scanList, h, if_true, List.append_eq]
      rw [ih]
      by_cases h2 : (scanList probe rest).1.isSome <;> simp [h2]
    · simp [scanList, h]

lemma scanChannelLoop_eq {α : Type} (probe : RadioConfig → List α) (rate crc pa aw : Nat)
    (chans : List Nat) :
    scanChannelLoop probe rate crc pa aw chans =
      scanList probe (chans.map fun ch => ⟨rate, crc, pa, aw, ch⟩) := by
  induction chans with
  | nil => simp [scanChannelLoop, scanList]
  | cons ch rest ih =>
    by_cases h : (probe ⟨rate, crc, pa, aw, ch⟩).isEmpty <;>
      simp [scanChannelLoop, scanList, h, ih]

lemma scanAddrLoop_eq {α : Type} (probe : RadioConfig → List α) (rate crc pa : Nat)
    (chans addrs : List Nat) :
    scanAddrLoop probe rate crc pa chans addrs =
      scanList probe (addrs.flatMap fun aw => chans.map fun ch => ⟨rate, crc, pa, aw, ch⟩) := by
  induction addrs with
  | nil => simp [scanAddrLoop, scanList]
  | cons aw rest ih =>
    rw [List.flatMap_cons, scanList_append]
    rw [scanAddrLoop, scanChannelLoop_eq, ih]
    cases h : (scanList probe (chans.map fun ch => ⟨rate, crc, pa, aw, ch⟩)).1 with
    | some res =>
      simp only [h, Option.isSome_some, if_true]
      rw [← h]
    | none => simp [h]

lemma scanPaLoop_eq {α : Type} (probe : RadioConfig → List α) (rate crc : Nat)
    (addrs chans pas : List Nat) :
    scanPaLoop probe rate crc addrs chans pas =
      scanList probe (pas.flatMap fun pa => addrs.flatMap fun aw =>
        chans.map fun ch => ⟨rate, crc, pa, aw, ch⟩) := by
  induction pas with
  | nil => simp [scanPaLoop, scanList]
  | cons pa rest ih =>
    rw [List.flatMap_cons, scanList_append]
    rw [scanPaLoop, scanAddrLoop_eq, ih]
    cases h : (scanList probe (addrs.flatMap fun aw =>
        chans.map fun ch => ⟨rate, crc, pa, aw, ch⟩)).1 with
    | some res =>
      simp only [h, Option.isSome_some, if_true]
      rw [← h]
    | none => simp [h]

lemma scanCrcLoop_eq {α : Type} (probe : RadioConfig → List α) (rate : Nat)
    (pas addrs chans crcs : List Nat) :
    scanCrcLoop probe rate pas addrs chans crcs =
      scanList probe (crcs.flatMap fun crc => pas.flatMap fun pa => addrs.flatMap fun aw =>
        chans.map fun ch => ⟨rate, crc, pa, aw, ch⟩) := by
  induction crcs with
  | nil => simp [scanCrcLoop, scanList]
  | cons crc rest ih =>
    rw [List.flatMap_cons, scanList_append]
    rw [scanCrcLoop, scanPaLoop_eq, ih]
    cases h : (scanList probe (pas.flatMap fun pa => addrs.flatMap fun aw =>
        chans.map fun ch => ⟨rate, crc, pa, aw, ch⟩)).1 with
    | some res =>
      simp only [h, Option.isSome_some, if_true]
      rw [← h]
    | none => simp [h]

lemma scanAllCombinations_eq_scanList {α : Type} (probe : RadioConfig → List α)
    (rates crcs pas addrs chans : List Nat) :
    scanAllCombinations probe rates crcs pas addrs chans =
      scanList probe (cartProduct rates crcs pas addrs chans) := by
  unfold scanAllCombinations cartProduct
  induction rates with
  | nil => simp [scanRateLoop, scanList]
  | cons rate rest ih =>
    rw [List.flatMap_cons, scanList_append]
    rw [scanRateLoop, scanCrcLoop_eq, ih]
    cases h : (scanList probe (crcs.flatMap fun crc => pas.flatMap fun pa => addrs.flatMap fun aw =>
        chans.map fun ch => ⟨rate, crc, pa, aw, ch⟩)).1 with
    | some res =>
      simp only [h, Option.isSome_some, if_true]
      rw [← h]
    | none => simp [h]

lemma scanList_fst {α : Type} (probe : RadioConfig → List α) (l : List RadioConfig) :
    (scanList probe l).1 =
      (l.find? fun c => !(probe c).isEmpty).map fun c => (c, probe c) := by
  induction l with
  | nil => simp [scanList]
  | cons c rest ih =>
    by_cases h : (probe c).isEmpty <;> simp [scanList, List.find?_cons, h, ih]

lemma scanList_snd {α : Type} (probe : RadioConfig → List α) (l : List RadioConfig) :
    (scanList probe l).2 =
      l.take ((l.findIdx fun c => !(probe c).isEmpty) + 1) := by
  induction l with
  | nil => simp [scanList]
  | cons c rest ih =>
    by_cases h : (probe c).isEmpty <;> simp [scanList, List.findIdx_cons, h, ih]

lemma nodup_bind_of_key {β : Type} (l : List Nat) (f : Nat → List β) (key : β → Nat)
    (hf : ∀ x, (f x).Nodup) (hk : ∀ x b, b ∈ f x → key b = x) (hl : l.Nodup) :
    (l.flatMap f).Nodup := by
  induction l with
  | nil => simp
  | cons a rest ih =>
    rw [List.flatMap_cons]
    have hna : a ∉ rest := (List.nodup_cons.mp hl).1
    refine (hf a).append (ih ((List.nodup_cons.mp hl).2)) ?_
    intro b hb hb2
    rcases List.mem_flatMap.mp hb2 with ⟨x, hx, hbx⟩
    have h1 := hk a b hb
    have h2 := hk x b hbx
    exact hna (h1 ▸ h2 ▸ hx)

lemma cartProduct_nodup {rates crcs pas addrs chans : List Nat}
    (h1 : rates.Nodup) (h2 : crcs.Nodup) (h3 : pas.Nodup) (h4 : addrs.Nodup)
    (h5 : chans.Nodup) :
    (cartProduct rates crcs pas addrs chans).Nodup := by
  have inner : ∀ rate crc pa aw,
      ((chans.map fun ch => (⟨rate, crc, pa, aw, ch⟩ : RadioConfig))).Nodup := by
    intro rate crc pa aw
    refine h5.map ?_
    intro x y hxy
    simpa using hxy
  have lvlAddr : ∀ rate crc pa,
      ((addrs.flatMap fun aw => chans.map fun ch =>
        (⟨rate, crc, pa, aw, ch⟩ : RadioConfig))).Nodup := by
    intro rate crc pa
    refine nodup_bind_of_key addrs _ (fun cfg => cfg.addrWidth) (fun aw => inner rate crc pa aw)
      ?_ h4
    intro aw b hb
    rcases List.mem_map.mp hb with ⟨ch, _, rfl⟩
    rfl
  have lvlPa : ∀ rate crc,
      ((pas.flatMap fun pa => addrs.flatMap fun aw => chans.map fun ch =>
        (⟨rate, crc, pa, aw, ch⟩ : RadioConfig))).Nodup := by
    intro rate crc
    refine nodup_bind_of_key pas _ (fun cfg => cfg.pa) (fun pa => lvlAddr rate crc pa) ?_ h3
    intro pa b hb
    rcases List.mem_flatMap.mp hb with ⟨aw, _, hbm⟩
    rcases List.mem_map.mp hbm with ⟨ch, _, rfl⟩
    rfl
  have lvlCrc : ∀ rate,
      ((crcs.flatMap fun crc => pas.flatMap fun pa => addrs.flatMap fun aw => chans.map fun ch =>
        (⟨rate, crc, pa, aw, ch⟩ : RadioConfig))).Nodup := by
    intro rate
    refine nodup_bind_of_key crcs _ (fun cfg => cfg.crc) (fun crc => lvlPa rate crc) ?_ h2
    intro crc b hb
    rcases List.mem_flatMap.mp hb with ⟨pa, _, hb2⟩
    rcases List.mem_flatMap.mp hb2 with ⟨aw, _, hbm⟩
    rcases List.mem_map.mp hbm with ⟨ch, _, rfl⟩
    rfl
  refine nodup_bind_of_key rates _ (fun cfg => cfg.rate) lvlCrc ?_ h1
  intro rate b hb
  rcases List.mem_flatMap.mp hb with ⟨crc, _, hb1⟩
  rcases List.mem_flatMap.mp hb1 with ⟨pa, _, hb2⟩
  rcases List.mem_flatMap.mp hb2 with ⟨aw, _, hbm⟩
  rcases List.mem_map.mp hbm with ⟨ch, _, rfl⟩
  rfl

/-- Claim C1: `scan_all_combinations` probes the Cartesian product of the
five enumeration lists in the fixed nesting order rate, crc, power,
address width, channel (channel fastest).  Its returned value is exactly
the first combination (in that order) whose probe yields at least one
packet, together with those packets, or the not-found outcome when no
combination does; the trace of probed combinations is exactly the prefix
of the product up to and including the first detecting combination (the
whole product when none detects).  When the five enumerations have no
duplicates, the product — hence the visit trace in the not-found case —
has no duplicates, so every combination is visited exactly once. -/
theorem scan_all_combinations_spec {α : Type} (probe : RadioConfig → List α)
    (rates crcs pas addrs chans : List Nat) :
    (scanAllCombinations probe rates crcs pas addrs chans =
      (((cartProduct rates crcs pas addrs chans).find?
          (fun c => !(probe c).isEmpty)).map (fun c => (c, probe c)),
        (cartProduct rates crcs pas addrs chans).take
          (((cartProduct rates crcs pas addrs chans).findIdx
            (fun c => !(probe c).isEmpty)) + 1))) ∧
      (rates.Nodup → crcs.Nodup → pas.Nodup → addrs.Nodup → chans.Nodup →
        (cartProduct rates crcs pas addrs chans).Nodup) := by
  constructor
  · rw [scanAllCombinations_eq_scanList]
    rw [← scanList_fst, ← scanList_snd]
  · intro h1 h2 h3 h4 h5
    exact cartProduct_nodup h1 h2 h3 h4 h5

/-- Witness for C1 at a concrete instance: two rates, one crc, one power,
one address width, three channels, with a probe that detects only on the
second rate's first channel. -/
theorem scan_all_combinations_spec_witness :
    ([10, 11].Nodup ∧ [0].Nodup ∧ [1].Nodup ∧ [3].Nodup ∧ [5, 6, 7].Nodup) ∧
      (cartProduct [10, 11] [0] [1] [3] [5, 6, 7]).Nodup :=
  ⟨by decide,
    (scan_all_combinations_spec (fun cfg => if cfg.rate = 11 then [0] else ([] : List Nat))
      [10, 11] [0] [1] [3] [5, 6, 7]).2
      (by decide) (by decide) (by decide) (by decide) (by decide)⟩

/-- One step structure of Python's `max(items, key=lambda x: x[1])`: the
running maximum is replaced only when a later item's count is strictly
greater, so the first-encountered item among ties is kept. -/
def pyMaxAux (best : Nat × Nat) : List (Nat × Nat) → Nat × Nat
  | [] => best
  | x :: rest => pyMaxAux (if best.2 < x.2 then x else best) rest

/-- `RFCapture.get_most_active_channel`: `None` on an empty activity
table, otherwise `max(self.channel_activity.items(), key=lambda x: x[1])`.
The activity dict is modelled as its list of (channel, count) items in
Python dict iteration order, which is insertion order. -/
def getMostActiveChannel : List (Nat × Nat) → Option (Nat × Nat)
  | [] => none
  | x :: rest => some (pyMaxAux x rest)

/-- Largest hit count appearing in an activity table (0 when empty). -/
def maxCount : List (Nat × Nat) → Nat
  | [] => 0
  | x :: rest => max x.2 (maxCount rest)

lemma find?_maxCount_isSome (l : List (Nat × Nat)) (h : 0 < maxCount l) :
    (l.find? fun x => x.2 == maxCount l).isSome := by
  induction l with
  | nil => simp [maxCount] at h
  | cons x rest ih =>
    by_cases hr : maxCount rest ≤ x.2
    · have hmax : maxCount (x :: rest) = x.2 := by simp only [maxCount]; omega
      rw [hmax, List.find?_cons_of_pos _ (by simp)]
      simp
    · have hmax : maxCount (x :: rest) = maxCount rest := by simp only [maxCount]; omega
      rw [hmax, List.find?_cons_of_neg _ (by simp; omega)]
      exact ih (by omega)

lemma pyMaxAux_spec : ∀ (t : List (Nat × Nat)) (best : Nat × Nat),
    pyMaxAux best t =
      if maxCount t ≤ best.2 then best
      else (t.find? fun x => x.2 == maxCount t).getD best
  | [], best => by simp [pyMaxAux, maxCount]
  | x :: rest, best => by
    rw [pyMaxAux]
    by_cases hx : best.2 < x.2
    · rw [if_pos hx, pyMaxAux_spec rest x]
      by_cases hr : maxCount rest ≤ x.2
      · have hmax : maxCount (x :: rest) = x.2 := by simp only [maxCount]; omega
        rw [if_pos hr, hmax, if_neg (by omega),
          List.find?_cons_of_pos _ (by simp)]
        rfl
      · have hmax : maxCount (x :: rest) = maxCount rest := by simp only [maxCount]; omega
        rw [if_neg hr, hmax, if_neg (by omega),
          List.find?_cons_of_neg _ (by simp; omega)]
        obtain ⟨v, hv⟩ := Option.isSome_iff_exists.mp (find?_maxCount_isSome rest (by omega))
        rw [hv]
        rfl
    · rw [if_neg hx, pyMaxAux_spec rest best]
      by_cases hr : maxCount rest ≤ best.2
      · have hle : maxCount (x :: rest) ≤ best.2 := by simp only [maxCount]; omega
        rw [if_pos hr, if_pos hle]
      · have hmax : maxCount (x :: rest) = maxCount rest := by simp only [maxCount]; omega
        rw [if_neg hr, hmax, if_neg hr,
          List.find?_cons_of_neg _ (by simp; omega)]

/-- Claim C8: on a non-empty activity table `get_most_active_channel`
returns the first entry (in dict insertion order) whose count equals the
table's maximum count — the highest-count channel, ties broken in favour
of the first-encountered one — and on the empty table it returns `None`.
In particular on the table with channel 3 mapped to 5, then channel 7
mapped to 5, then channel 1 mapped to 2, it returns channel 3. -/
theorem get_most_active_channel_spec (l : List (Nat × Nat)) :
    (getMostActiveChannel l = l.find? fun x => x.2 == maxCount l) ∧
      getMostActiveChannel [(3, 5), (7, 5), (1, 2)] = some (3, 5) := by
  constructor
  · cases l with
    | nil => simp [getMostActiveChannel]
    | cons x rest =>
      rw [getMostActiveChannel, pyMaxAux_spec]
      by_cases hr : maxCount rest ≤ x.2
      · have hmax : maxCount (x :: rest) = x.2 := by simp only [maxCount]; omega
        rw [if_pos hr, hmax, List.find?_cons_of_pos _ (by simp)]
      · have hmax : maxCount (x :: rest) = maxCount rest := by simp only [maxCount]; omega
        rw [if_neg hr, hmax, List.find?_cons_of_neg _ (by simp; omega)]
        obtain ⟨v, hv⟩ := Option.isSome_iff_exists.mp (find?_maxCount_isSome rest (by omega))
        rw [hv]
        rfl
  · decide

/-- `RFRepeat.repeat_sequence`'s loop from iteration index `i` onward.
`stop i` tells whether `is_repeating` had been cleared when iteration `i`
was reached (the loop then breaks); `send p` is whether
`self.radio.write(p)` in `repeat_packet` reported success for payload `p`.
Returns the success count together with the payloads for which a send was
attempted, in order. -/
def repeatSeqAux (send : List Nat → Bool) (stop : Nat → Bool) :
    List (List Nat) → Nat → Nat × List (List Nat)
  | [], _ => (0, [])
  | p :: rest, i =>
    if stop i then (0, [])
    else
      let r := repeatSeqAux send stop rest (i + 1)
      ((if send p then 1 else 0) + r.1, p :: r.2)

/-- `RFRepeat.repeat_sequence`: `success_count` starts at 0 and the loop
starts at the first payload. -/
def repeatSequence (send : List Nat → Bool) (stop : Nat → Bool)
    (packets : List (List Nat)) : Nat × List (List Nat) :=
  repeatSeqAux send stop packets 0

lemma repeatSeqAux_no_stop (send : List Nat → Bool) (stop : Nat → Bool)
    (hstop : ∀ i, stop i = false) (packets : List (List Nat)) :
    ∀ i, repeatSeqAux send stop packets i = ((packets.filter send).length, packets) := by
  induction packets with
  | nil => intro i; simp [repeatSeqAux]
  | cons p rest ih =>
    intro i
    by_cases hs : send p <;>
      simp [repeatSeqAux, hstop i, ih (i + 1), List.filter_cons, hs] <;> omega

/-- Claim C9: absent an operator stop, `repeat_sequence` attempts a send
for every payload in order regardless of intermediate failures — a failed
send never aborts the remaining sequence — and returns the number of
sends that succeeded. -/
theorem repeat_sequence_spec (send : List Nat → Bool) (stop : Nat → Bool)
    (packets : List (List Nat)) (hstop : ∀ i, stop i = false) :
    (repeatSequence send stop packets).2 = packets ∧
      (repeatSequence send stop packets).1 = (packets.filter send).length := by
  rw [repeatSequence, repeatSeqAux_no_stop send stop hstop]
  exact ⟨rfl, rfl⟩

/-- Witness for C9 at the claim's concrete instance: three payloads with
two simulated transmit failures — all three sends are attempted and the
success count is 1. -/
theorem repeat_sequence_spec_witness :
    (∀ i, (fun _ : Nat => false) i = false) ∧
      (repeatSequence (fun p => p == [1]) (fun _ => false) [[1], [2], [3]]).2 =
        [[1], [2], [3]] ∧
      (repeatSequence (fun p => p == [1]) (fun _ => false) [[1], [2], [3]]).1 = 1 := by
  refine ⟨fun _ => rfl, ?_, ?_⟩
  · exact (repeat_sequence_spec (fun p => p == [1]) (fun _ => false) [[1], [2], [3]]
      (fun _ => rfl)).1
  · rw [(repeat_sequence_spec (fun p => p == [1]) (fun _ => false) [[1], [2], [3]]
      (fun _ => rfl)).2]
    decide

/-- The whitespace characters removed by Python's `str.strip()`, by code
point: space, tab, line feed, carriage return, vertical tab, form feed. -/
def isSpaceChar (c : Char) : Bool :=
  c.toNat = 32 || c.toNat = 9 || c.toNat = 10 || c.toNat = 13 ||
    c.toNat = 11 || c.toNat = 12

/-- `line.strip()` on a list of characters. -/
def stripChars (l : List Char) : List Char :=
  ((l.dropWhile isSpaceChar).reverse.dropWhile isSpaceChar).reverse

/-- `line.split(",")`: split at every comma; splitting the empty string
yields one empty field, as in Python. -/
def splitComma : List Char → List (List Char)
  | [] => [[]]
  | c :: rest =>
    if c = ',' then [] :: splitComma rest
    else
      match splitComma rest with
      | [] => [[c]]
      | f :: fs => (c :: f) :: fs

/-- Digit character for a value below 16 (lowercase, as `bytes.hex()`;
also used for decimal rendering, where the value is below 10): code
point 48 is the zero digit and 97 is lowercase a. -/
def toHexDigit (n : Nat) : Char :=
  if n < 10 then Char.ofNat (48 + n)
  else if n < 16 then Char.ofNat (87 + n)
  else Char.ofNat 48

/-- Whether `bytes.fromhex` accepts a character as a hex digit. -/
def isHexDigit (c : Char) : Bool :=
  ('0' ≤ c && c ≤ '9') || ('a' ≤ c && c ≤ 'f') || ('A' ≤ c && c ≤ 'F')

/-- Numeric value of a hex digit character. -/
def hexVal (c : Char) : Nat :=
  if '0' ≤ c && c ≤ '9' then c.toNat - '0'.toNat
  else if 'a' ≤ c && c ≤ 'f' then c.toNat - 'a'.toNat + 10
  else if 'A' ≤ c && c ≤ 'F' then c.toNat - 'A'.toNat + 10
  else 0

/-- `bytes.hex()` of a single byte: exactly two lowercase hex digits. -/
def byteToHex (b : Nat) : List Char := [toHexDigit (b / 16), toHexDigit (b % 16)]

/-- `data.hex()`: lowercase hex, no separators. -/
def bytesToHex (bs : List Nat) : List Char := bs.flatMap byteToHex

/-- `bytes.fromhex` on separator-free input (the shape of a capture-log
payload field): consumes pairs of hex digits; an odd-length tail or a
non-hex character raises `ValueError`, modelled as `none`. -/
def fromHex : List Char → Option (List Nat)
  | [] => some []
  | c1 :: c2 :: rest =>
    if isHexDigit c1 && isHexDigit c2 then
      (fromHex rest).map fun bs => (hexVal c1 * 16 + hexVal c2) :: bs
    else none
  | [_] => none

/-- Decimal rendering of a natural number, as an f-string renders the
non-negative ints `packet['channel']` and `packet['length']`. -/
def natToChars (n : Nat) : List Char :=
  if n = 0 then ['0'] else (Nat.digits 10 n).reverse.map toHexDigit

/-- One captured packet as stored by `RFCapture`: a dict with keys
timestamp, channel, data, length.  The timestamp (a Python float) is kept
as its rendered character sequence. -/
structure CapPacket where
  timestamp : List Char
  channel : Nat
  data : List Nat
  length : Nat

/-- The record line written by `RFCapture.save_capture` for one packet:
`timestamp,channel,length,payload-hex`.  The terminating newline is the
line separator of the file, which is modelled line by line. -/
def saveRecord (p : CapPacket) : List Char :=
  p.timestamp ++ ',' ::
    (natToChars p.channel ++ ',' :: (natToChars p.length ++ ',' :: bytesToHex p.data))

/-- `RFCapture.save_capture`: one record line per captured packet. -/
def saveCapture (log : List CapPacket) : List (List Char) := log.map saveRecord

/-- The fields of one line as `repeat_from_file` sees them:
`line.strip().split(",")`. -/
def lineParts (line : List Char) : List (List Char) := splitComma (stripChars line)

/-- The parsing loop of `RFRepeat.repeat_from_file`: a line with fewer
than 4 comma-separated fields is skipped; on a line with at least 4
fields, `bytes.fromhex(parts[3])` either yields the payload or raises
`ValueError`, which no handler in `repeat_from_file` catches (only
`FileNotFoundError` is), so the whole load aborts with the error. -/
def loadRecords : List (List Char) → Except Unit (List (List Nat))
  | [] => Except.ok []
  | line :: rest =>
    let parts := lineParts line
    if 4 ≤ parts.length then
      match fromHex (parts.getD 3 []) with
      | some bs => (loadRecords rest).map fun l => bs :: l
      | none => Except.error ()
    else loadRecords rest

/-- `RFRepeat.repeat_from_file`: a missing file raises
`FileNotFoundError`, which is caught and reported, returning success
count 0 with no send attempted; otherwise the parsed payloads are handed
to `repeat_sequence`.  An uncaught `ValueError` from parsing propagates
as the error outcome. -/
def repeatFromFile (send : List Nat → Bool) (stop : Nat → Bool)
    (file : Option (List (List Char))) : Except Unit (Nat × List (List Nat)) :=
  match file with
  | none => Except.ok (0, [])
  | some lines => (loadRecords lines).map fun pls => repeatSequence send stop pls

lemma splitComma_no_comma (l : List Char) (h : ∀ c ∈ l, c ≠ ',') :
    splitComma l = [l] := by
  induction l with
  | nil => rfl
  | cons c rest ih =>
    rw [splitComma, if_neg (h c (by simp)), ih (fun x hx => h x (by simp [hx]))]

lemma splitComma_append (a r : List Char) (h : ∀ c ∈ a, c ≠ ',') :
    splitComma (a ++ ',' :: r) = a :: splitComma r := by
  induction a with
  | nil => simp [splitComma]
  | cons c rest ih =>
    rw [List.cons_append, splitComma, if_neg (h c (by simp)),
      ih (fun x hx => h x (by simp [hx]))]

lemma dropWhile_no (p : Char → Bool) (l : List Char) (h : ∀ c ∈ l, p c = false) :
    l.dropWhile p = l := by
  cases l with
  | nil => rfl
  | cons c rest => simp [List.dropWhile_cons, h c (by simp)]

lemma stripChars_eq (l : List Char) (h : ∀ c ∈ l, isSpaceChar c = false) :
    stripChars l = l := by
  unfold stripChars
  rw [dropWhile_no _ _ h,
    dropWhile_no _ _ (fun c hc => h c (List.mem_reverse.mp hc)),
    List.reverse_reverse]

lemma toHexDigit_facts (n : Nat) (h : n < 16) :
    isHexDigit (toHexDigit n) = true ∧ hexVal (toHexDigit n) = n ∧
      toHexDigit n ≠ ',' ∧ isSpaceChar (toHexDigit n) = false := by
  interval_cases n <;> decide

lemma fromHex_bytesToHex (bs : List Nat) (h : ∀ b ∈ bs, b < 256) :
    fromHex (bytesToHex bs) = some bs := by
  induction bs with
  | nil => rfl
  | cons b rest ih =>
    have hb : b < 256 := h b (by simp)
    have h1 := toHexDigit_facts (b / 16) (by omega)
    have h2 := toHexDigit_facts (b % 16) (by omega)
    simp only [bytesToHex, List.flatMap_cons, byteToHex, List.cons_append,
      List.nil_append]
    rw [fromHex, if_pos (by rw [h1.1, h2.1]; rfl)]
    have ihr := ih (fun x hx => h x (by simp [hx]))
    simp only [bytesToHex] at ihr
    rw [ihr]
    have hdm : b / 16 * 16 + b % 16 = b := by omega
    simp [h1.2.1, h2.2.1, hdm]

lemma natToChars_chars (n : Nat) :
    ∀ c ∈ natToChars n, c ≠ ',' ∧ isSpaceChar c = false := by
  intro c hc
  unfold natToChars at hc
  by_cases h : n = 0
  · rw [if_pos h] at hc
    simp only [List.mem_singleton] at hc
    subst hc
    exact ⟨by decide, rfl⟩
  · rw [if_neg h] at hc
    rcases List.mem_map.mp hc with ⟨d, hd, rfl⟩
    have hlt : d < 10 := Nat.digits_lt_base (by norm_num) (List.mem_reverse.mp hd)
    have hf := toHexDigit_facts d (by omega)
    exact ⟨hf.2.2.1, hf.2.2.2⟩

lemma toHexDigit_not_special (n : Nat) :
    toHexDigit n ≠ ',' ∧ isSpaceChar (toHexDigit n) = false := by
  by_cases h : n < 16
  · have hf := toHexDigit_facts n h
    exact ⟨hf.2.2.1, hf.2.2.2⟩
  · unfold toHexDigit
    rw [if_neg (by omega), if_neg (by omega)]
    exact ⟨by decide, rfl⟩

lemma bytesToHex_chars (bs : List Nat) :
    ∀ c ∈ bytesToHex bs, c ≠ ',' ∧ isSpaceChar c = false := by
  intro c hc
  rcases List.mem_flatMap.mp hc with ⟨b, _, hcb⟩
  simp only [byteToHex, List.mem_cons, List.mem_singleton, List.not_mem_nil,
    or_false] at hcb
  rcases hcb with rfl | rfl
  · exact toHexDigit_not_special (b / 16)
  · exact toHexDigit_not_special (b % 16)

lemma lineParts_saveRecord (p : CapPacket)
    (hts : ∀ c ∈ p.timestamp, c ≠ ',' ∧ isSpaceChar c = false) :
    lineParts (saveRecord p) =
      [p.timestamp, natToChars p.channel, natToChars p.length, bytesToHex p.data] := by
  unfold lineParts saveRecord
  rw [stripChars_eq]
  · rw [splitComma_append _ _ (fun c hc => (hts c hc).1),
      splitComma_append _ _ (fun c hc => (natToChars_chars _ c hc).1),
      splitComma_append _ _ (fun c hc => (natToChars_chars _ c hc).1),
      splitComma_no_comma _ (fun c hc => (bytesToHex_chars _ c hc).1)]
  · intro c hc
    simp only [List.mem_append, List.mem_cons] at hc
    rcases hc with h | h | h
    · exact (hts c h).2
    · subst h; rfl
    · rcases h with h | h | h
      · exact (natToChars_chars _ c h).2
      · subst h; rfl
      · rcases h with h | h | h
        · exact (natToChars_chars _ c h).2
        · subst h; rfl
        · exact (bytesToHex_chars _ c h).2

/-- Claim C2: persisting a capture log through `save_capture` (one
`timestamp,channel,length,hex-payload` record per packet) and reloading
the file through `repeat_from_file`'s parser yields exactly one payload
entry per packet, each equal to the original packet's bytes.  The
well-formedness hypotheses are those every real record satisfies: payload
bytes below 256 and a timestamp rendering (a Python float) containing no
comma and no whitespace. -/
theorem capture_log_round_trip (log : List CapPacket)
    (hwf : ∀ p ∈ log, (∀ b ∈ p.data, b < 256) ∧
      (∀ c ∈ p.timestamp, c ≠ ',' ∧ isSpaceChar c = false)) :
    loadRecords (saveCapture log) = Except.ok (log.map fun p => p.data) := by
  induction log with
  | nil => rfl
  | cons p rest ih =>
    have hp := hwf p (by simp)
    rw [saveCapture, List.map_cons, List.map_cons]
    rw [loadRecords]
    rw [lineParts_saveRecord p hp.2]
    rw [if_pos (by simp)]
    have hget : ([p.timestamp, natToChars p.channel, natToChars p.length,
        bytesToHex p.data].getD 3 []) = bytesToHex p.data := rfl
    rw [hget, fromHex_bytesToHex p.data hp.1]
    have ihr := ih (fun q hq => hwf q (by simp [hq]))
    rw [saveCapture] at ihr
    rw [ihr]
    rfl

/-- Witness for C2 on a concrete two-packet log. -/
theorem capture_log_round_trip_witness :
    (∀ p ∈ [CapPacket.mk ['1', '.', '5'] 76 [222, 173] 2,
        CapPacket.mk ['2', '.', '0'] 3 [] 0],
      (∀ b ∈ p.data, b < 256) ∧
        (∀ c ∈ p.timestamp, c ≠ ',' ∧ isSpaceChar c = false)) ∧
      loadRecords (saveCapture [CapPacket.mk ['1', '.', '5'] 76 [222, 173] 2,
        CapPacket.mk ['2', '.', '0'] 3 [] 0]) = Except.ok [[222, 173], []] := by
  refine ⟨by decide, ?_⟩
  rw [capture_log_round_trip _ (by decide)]
  rfl

/-- Counterexample to C3 as stated: a file whose single line has four
fields but a non-hex payload field makes the loader raise (the
`ValueError` from `bytes.fromhex` is not caught by `repeat_from_file`,
which only handles `FileNotFoundError`), rather than being skipped. -/
theorem load_aborts_on_non_hex_payload :
    loadRecords [['1', ',', '2', ',', '3', ',', 'z', 'z']] = Except.error () := rfl

/-- Claim C3 (amended): the loader tolerates and skips lines with fewer
than four comma-separated fields without raising, each such line only
reducing the number of replayed entries, provided every line with at
least four fields carries a valid-hex payload field; a non-hex payload
field instead raises an uncaught error (see the counterexample). -/
theorem load_skips_short_lines (lines : List (List Char))
    (h : ∀ line ∈ lines, 4 ≤ (lineParts line).length →
      (fromHex ((lineParts line).getD 3 [])).isSome) :
    loadRecords lines = Except.ok
      ((lines.filter fun l => decide (4 ≤ (lineParts l).length)).map
        fun l => (fromHex ((lineParts l).getD 3 [])).getD []) := by
  induction lines with
  | nil => rfl
  | cons line rest ih =>
    have ihr := ih fun l hl => h l (by simp [hl])
    by_cases hl : 4 ≤ (lineParts line).length
    · obtain ⟨bs, hbs⟩ := Option.isSome_iff_exists.mp (h line (by simp) hl)
      rw [loadRecords, if_pos hl, hbs, ihr,
        List.filter_cons_of_pos (by simpa using hl), List.map_cons, hbs]
      rfl
    · rw [loadRecords, if_neg hl, ihr,
        List.filter_cons_of_neg (by simpa using hl)]

/-- Witness for C3's amended claim: one malformed short line between two
well-formed records — the short line is skipped, both records load. -/
theorem load_skips_short_lines_witness :
    (∀ line ∈ [['1', ',', '2', ',', '3', ',', '0', 'a'], ['x'],
        ['4', ',', '5', ',', '6', ',', 'f', 'f']],
      4 ≤ (lineParts line).length →
        (fromHex ((lineParts line).getD 3 [])).isSome) ∧
      loadRecords [['1', ',', '2', ',', '3', ',', '0', 'a'], ['x'],
        ['4', ',', '5', ',', '6', ',', 'f', 'f']] = Except.ok [[10], [255]] := by
  refine ⟨by decide, ?_⟩
  rw [load_skips_short_lines _ (by decide)]
  rfl

/-- Claim C10: when the file named in a file-based replay does not exist
(`FileNotFoundError`), `repeat_from_file` reports the missing file and
returns success count 0, with no send attempted, instead of raising. -/
theorem repeat_from_file_missing (send : List Nat → Bool) (stop : Nat → Bool) :
    repeatFromFile send stop none = Except.ok (0, []) := rfl

/-- The hardware-visible behaviour of one `_scan_config` trial in
`adaptive_scanner.py`: whether applying the configuration (the setter
calls and `startListening`) raises, and the successive results of the
polled reads, where `Except.error` marks a read that raises. -/
structure TrialBehavior where
  applyResult : Except String Unit
  reads : List (Except String (List Nat))

/-- The polling loop of `_scan_config` inside its `try`: collects each
non-empty read; a raising read jumps to the `except Exception` branch,
which stops listening, discards the caught exception unused, and returns
the empty list.  The second component is the list of reporter events
emitted during the trial — `_scan_config` emits none on any path. -/
def scanConfigLoop :
    List (Except String (List Nat)) → List (List Nat) → List (List Nat) × List String
  | [], acc => (acc.reverse, [])
  | Except.ok d :: rest, acc =>
    scanConfigLoop rest (if d.isEmpty then acc else d :: acc)
  | Except.error _ :: _, _ => ([], [])

/-- `AdaptiveScanner._scan_config`: a raising configuration application
also lands in the `except Exception` branch, returning the empty list
with nothing reported. -/
def scanConfig (b : TrialBehavior) : List (List Nat) × List String :=
  match b.applyResult with
  | Except.ok _ => scanConfigLoop b.reads []
  | Except.error _ => ([], [])

/-- A failure occurs while applying the configuration or reading. -/
def trialFails (b : TrialBehavior) : Prop :=
  b.applyResult.isOk = false ∨ ∃ r ∈ b.reads, r.isOk = false

/-- Counterexample to C5 as stated: on a trial whose configuration
application raises (say, a rejected config value), `_scan_config` returns
the empty packet list — but emits no log or metric whatsoever (its
`except Exception as e` branch never uses `e`), so the failure reason is
silently lost rather than surfaced via a side channel as the claim
requires. -/
theorem scan_config_failure_not_surfaced :
    scanConfig ⟨Except.error "configuration rejected", []⟩ = ([], []) := rfl

/-- Claim C5 (amended): any failure while applying the configuration or
reading during a trial is swallowed — the trial returns the empty packet
sequence (even packets read before the failure are discarded) and the
search continues — but the failure reason is not surfaced: the trial
emits no log or metric event on any path. -/
theorem scan_config_swallows_failures (b : TrialBehavior) (hfail : trialFails b) :
    scanConfig b = ([], []) := by
  rcases b with ⟨ar, reads⟩
  cases ar with
  | error e => rfl
  | ok u =>
    rcases hfail with hb | ⟨r, hr, hrf⟩
    · simp [Except.isOk, Except.toBool] at hb
    · unfold scanConfig
      have hloop : ∀ (rs : List (Except String (List Nat))) (acc : List (List Nat)),
          (∃ x ∈ rs, x.isOk = false) → scanConfigLoop rs acc = ([], []) := by
        intro rs
        induction rs with
        | nil =>
          intro acc hex
          simp at hex
        | cons x rest ih =>
          intro acc hex
          cases x with
          | error e => rfl
          | ok d =>
            rcases hex with ⟨y, hym, hyf⟩
            rcases List.mem_cons.mp hym with rfl | hym2
            · simp [Except.isOk, Except.toBool] at hyf
            · exact ih _ ⟨y, hym2, hyf⟩
      exact hloop reads [] ⟨r, hr, hrf⟩

/-- Witness for C5's amended claim: a trial whose second read raises,
after a successful first read. -/
theorem scan_config_swallows_failures_witness :
    trialFails ⟨Except.ok (), [Except.ok [1, 2], Except.error "read fault"]⟩ ∧
      scanConfig ⟨Except.ok (), [Except.ok [1, 2], Except.error "read fault"]⟩ =
        ([], []) :=
  ⟨Or.inr ⟨Except.error "read fault", by simp, rfl⟩,
    scan_config_swallows_failures _ (Or.inr ⟨Except.error "read fault", by simp, rfl⟩)⟩

/-- `RFCapture._capture_single_channel`: for each receive event (rendered
timestamp, read bytes — the dynamic payload size is the byte count), a
packet dict with timestamp, data, length and the session's channel is
appended to `captured_data` when the length is positive.
`channel_activity` is passed through untouched: this function never
updates it. -/
def captureSingleChannel (channel : Nat) :
    List (List Char × List Nat) → List CapPacket → List (Nat × Nat) →
      List CapPacket × List (Nat × Nat)
  | [], capturedData, channelActivity => (capturedData, channelActivity)
  | ev :: rest, capturedData, channelActivity =>
    if 0 < ev.2.length then
      captureSingleChannel channel rest
        (capturedData ++ [CapPacket.mk ev.1 channel ev.2 ev.2.length]) channelActivity
    else
      captureSingleChannel channel rest capturedData channelActivity

/-- `RFCapture.start_capture(duration, scan_all=False)`: resets
`captured_data` to `[]` and `channel_activity` to the empty dict, then
runs `_capture_single_channel`. -/
def startCaptureSingle (channel : Nat) (events : List (List Char × List Nat)) :
    List CapPacket × List (Nat × Nat) :=
  captureSingleChannel channel events [] []

/-- Hit count recorded for a channel in an activity table (0 when the
channel has no entry, like an absent Python dict key). -/
def activityCount (m : List (Nat × Nat)) (ch : Nat) : Nat :=
  match m.find? fun e => e.1 == ch with
  | some e => e.2
  | none => 0

/-- Counterexample to C6 as stated: a single-channel session on channel 7
receiving one packet appends it to the capture log, yet the activity
count of channel 7 after the session is 0, not 1 —
`_capture_single_channel` never increments `channel_activity` (only
`_scan_all_channels` does). -/
theorem capture_single_channel_no_activity :
    (startCaptureSingle 7 [(['1'], [5])]).1.length = 1 ∧
      activityCount (startCaptureSingle 7 [(['1'], [5])]).2 7 = 0 :=
  ⟨rfl, rfl⟩

lemma captureSingleChannel_spec (channel : Nat)
    (events : List (List Char × List Nat)) :
    ∀ acc act, captureSingleChannel channel events acc act =
      (acc ++ (events.filter fun ev => decide (0 < ev.2.length)).map
        (fun ev => CapPacket.mk ev.1 channel ev.2 ev.2.length), act) := by
  induction events with
  | nil =>
    intro acc act
    simp [captureSingleChannel]
  | cons ev rest ih =>
    intro acc act
    by_cases h : 0 < ev.2.length
    · rw [captureSingleChannel, if_pos h, ih,
        List.filter_cons_of_pos (by simpa using h), List.map_cons]
      simp
    · rw [captureSingleChannel, if_neg h, ih,
        List.filter_cons_of_neg (by simpa using h)]

/-- Claim C6 (amended): in single-channel capture mode every received
packet of positive length is appended to the capture log with its
timestamp, the session's channel, payload and length — but
`ChannelActivity` is never updated: it stays empty for the whole session,
so the activity count of the session's channel is 0 regardless of how
many packets were captured (activity is tracked only in scan-all mode). -/
theorem capture_single_channel_spec (channel : Nat)
    (events : List (List Char × List Nat)) :
    (startCaptureSingle channel events).1 =
      (events.filter fun ev => decide (0 < ev.2.length)).map
        (fun ev => CapPacket.mk ev.1 channel ev.2 ev.2.length) ∧
      (startCaptureSingle channel events).2 = [] := by
  rw [startCaptureSingle, captureSingleChannel_spec channel events [] []]
  exact ⟨by simp, rfl⟩

/-- One histogram update step shared by both spectrum sweepers: at step
`k` the loop dwells on channel `k % 126`; `detect k` is the
OR-of-three-signals detection outcome for that dwell; on a hit the dwelt
channel's entry is incremented, otherwise nothing changes. -/
def sweepStep (detect : Nat → Bool) (signals : List Nat) (k : Nat) : List Nat :=
  if detect k then signals.set (k % 126) (signals.getD (k % 126) 0 + 1) else signals

/-- `scan_spectrum`'s histogram (`scanner.py`) after `k` channel-dwell
steps: starts at `[0] * 126` and is only ever incremented within the run;
`signals` is never re-initialised inside the loop. -/
def sweepState (detect : Nat → Bool) : Nat → List Nat
  | 0 => List.replicate 126 0
  | k + 1 => sweepStep detect (sweepState detect k) k

/-- The `scanner_cpp.py` `main` histogram after `k` channel-dwell steps:
the same per-step update, but the `while True` body re-initialises
`values = [0] * num_channels` at the start of every 100-pass block —
i.e. before every step whose index is a multiple of 100 * 126 = 12600. -/
def cppState (detect : Nat → Bool) : Nat → List Nat
  | 0 => List.replicate 126 0
  | k + 1 =>
    sweepStep detect
      (if k % 12600 = 0 then List.replicate 126 0 else cppState detect k) k

/-- Counterexample to C7 as stated: in the unbounded `scanner_cpp`
monitor with a single detection at step 0, channel 0's histogram entry is
1 after step 1 but 0 again after step 12601 — the `values = [0] * 126`
re-initialisation at the 100-pass block boundary clears the histogram in
the middle of the run, with no operator reset and no new session. -/
theorem cpp_histogram_reset_mid_run :
    (cppState (fun k => k == 0) 1).getD 0 0 = 1 ∧
      (cppState (fun k => k == 0) 12601).getD 0 0 = 0 := by
  constructor
  · rfl
  · have h1 : (12601 : Nat) = 12600 + 1 := rfl
    rw [h1, cppState, if_pos (by norm_num)]
    unfold sweepStep
    rw [if_neg (by decide)]
    rfl

lemma getD_set_ge (l : List Nat) : ∀ (i ch : Nat),
    l.getD ch 0 ≤ (l.set i (l.getD i 0 + 1)).getD ch 0 := by
  induction l with
  | nil =>
    intro i ch
    simp
  | cons x t ih =>
    intro i ch
    cases i with
    | zero =>
      cases ch with
      | zero => simp [List.getD_cons_zero]
      | succ m => simp [List.getD_cons_succ]
    | succ n =>
      cases ch with
      | zero => simp [List.getD_cons_zero]
      | succ m => simpa [List.getD_cons_succ] using ih n m

/-- Claim C7 (amended): within a single `scan_spectrum` run
(`scanner.py`) every channel's histogram entry is non-decreasing from
each step to the next — each detection adds one to the dwelt channel and
nothing ever subtracts or clears — whereas the unbounded `scanner_cpp`
monitor clears its whole histogram at every 100-pass block boundary in
the middle of the run (see the counterexample). -/
theorem sweep_histogram_monotone (detect : Nat → Bool) (k ch : Nat) :
    (sweepState detect k).getD ch 0 ≤ (sweepState detect (k + 1)).getD ch 0 := by
  rw [sweepState]
  unfold sweepStep
  by_cases h : detect k
  · rw [if_pos h]
    exact getD_set_ge _ _ _
  · rw [if_neg h]

/-- State of `RFSniffer` (`main.py`) relevant to interrupt teardown: the
`running` flag, the two sessions' active flags (`is_capturing`,
`is_repeating`), and how many times `cleanup()` — the release of both
Radio handles (stop listening, power-down, GPIO cleanup) — has run. -/
structure ControllerState where
  running : Bool
  captureActive : Bool
  repeatActive : Bool
  releaseCount : Nat
deriving DecidableEq

/-- `RFSniffer.cleanup`: releases both Radio handles unconditionally;
nothing guards against it running more than once. -/
def cleanupStep (s : ControllerState) : ControllerState :=
  { s with releaseCount := s.releaseCount + 1 }

/-- `RFSniffer.signal_handler`: clears `running`, stops both sessions
(`stop_capture`, `stop_repeat`), calls `cleanup()`, then `sys.exit(0)`
(raising `SystemExit`). -/
def signalHandlerStep (s : ControllerState) : ControllerState :=
  cleanupStep { s with running := false, captureActive := false, repeatActive := false }

/-- `main`'s control flow when one SIGINT arrives while a mode body runs
inside the `try`: the signal handler runs to completion (including its
`cleanup()`); its `sys.exit(0)` raises `SystemExit`, which `except
KeyboardInterrupt` does not catch; the `finally` block then runs
`sniffer.cleanup()` once more before the process exits. -/
def runWithSingleInterrupt (s : ControllerState) : ControllerState :=
  cleanupStep (signalHandlerStep s)

/-- Claim C4 documents a code bug: on a single operator interrupt both
sessions are indeed transitioned to stopped before the release, but the
Radio handles are then released twice — once by `signal_handler`'s
`cleanup()` and once more by `main`'s `finally` block — not exactly once
as the claim requires, and further interrupts would add further
releases. -/
theorem interrupt_releases_twice :
    runWithSingleInterrupt ⟨true, true, true, 0⟩ = ⟨false, false, false, 2⟩ := rfl

end PiSniffRF
